import Mathlib

/-!
Shallow embedding of the `manuel_bot` repository (two Red-DiscordBot cogs:
`VidChoose/vidchoose.py` and `ventcontrol/ventcontrol.py`).

Conventions of the embedding:
* Python dicts (which iterate in insertion order) become association lists
  `List (key × value)`; dict iteration is list iteration, `key in dict` is
  `List.lookup`.
* Python floats (channel weights, timestamps) become `ℚ`: the claims under
  study are about control flow and exact comparisons, not rounding.
* Randomness is made explicit: `random.uniform(0, total)` becomes a
  parameter `r : ℚ`, and `random.choice(lst)` becomes indexing by a
  parameter `k : ℕ` as `lst.get? (k % lst.length)` (every element is
  reachable for some `k`, none others are).
* Network calls (the YouTube API resolvers) become oracle parameters
  `String → Option String`; async config reads/writes become explicit state
  passing on a `GuildState` record.
-/

namespace VidChoose

/-- One entry of the per-guild channel catalog
(`channels[cid] = {"name": ..., "weight": ..., "video_ids": [...]}` in
`vidchoose.py`).  A dict missing the `weight` key reads as `1.0` via
`data.get("weight", 1.0)` and a missing `video_ids` key reads as the empty
list, so total fields are faithful. -/
structure ChannelData where
  name : String
  weight : ℚ
  video_ids : List String
  deriving Repr, DecidableEq

/-- The filter of `_weighted_choice` (vidchoose.py lines 311-317): keep a
catalog entry iff `data.get("video_ids")` is a non-empty list and
`data.get("weight", 1.0) > 0`; the kept entries map `cid ↦ weight` in
catalog iteration order. -/
def validChannels (channels : List (String × ChannelData)) : List (String × ℚ) :=
  (channels.filter (fun p => !p.2.video_ids.isEmpty && 0 < p.2.weight)).map
    (fun p => (p.1, p.2.weight))

/-- `total = sum(valid_channels.values())` (vidchoose.py line 322). -/
def totalWeight (vc : List (String × ℚ)) : ℚ :=
  (vc.map Prod.snd).sum

/-- The cumulative-sum walk of `_weighted_choice` (vidchoose.py lines
328-333): `cumulative` starts at the accumulator `c`, each entry adds its
weight, and the first entry with `rand <= cumulative` is returned. -/
def cumWalk (r : ℚ) (c : ℚ) : List (String × ℚ) → Option String
  | [] => none
  | p :: rest =>
      if r ≤ c + p.2 then some p.1 else cumWalk r (c + p.2) rest

/-- The cumulative weight of the qualifying entries up to and including
index `i` — the reference quantity of the spec's walk ("accumulating
partial sums"). -/
def cumAt (vc : List (String × ℚ)) (i : ℕ) : ℚ :=
  ((vc.take (i + 1)).map Prod.snd).sum

/-- `_weighted_choice` (vidchoose.py lines 304-335), with the random draw
`rand = random.uniform(0, total)` passed in as `r` and the index drawn by
`random.choice` in the `total <= 0` branch passed in as `k`.  The trailing
`return list(valid_channels.keys())[-1]` is the `getLast?` fallback. -/
def weightedChoice (channels : List (String × ChannelData)) (r : ℚ) (k : ℕ) :
    Option String :=
  if channels.isEmpty then none
  else
    let vc := validChannels channels
    if vc.isEmpty then none
    else
      let total := totalWeight vc
      if total ≤ 0 then (vc.map Prod.fst).get? (k % vc.length)
      else
        match cumWalk r 0 vc with
        | some cid => some cid
        | none => (vc.map Prod.fst).getLast?

/-- `_select_video_from_channel` (vidchoose.py lines 337-356): look the
channel up in the catalog, bail out on a missing channel or empty video
list, drop videos present in the recency buffer, fall back to the
unfiltered list when nothing is left, and draw uniformly (index `k`). -/
def selectVideoFromChannel (channels : List (String × ChannelData))
    (channel_id : String) (video_history : List String) (k : ℕ) :
    Option String :=
  match channels.lookup channel_id with
  | none => none
  | some d =>
      if d.video_ids.isEmpty then none
      else
        let avail := d.video_ids.filter (fun v => !video_history.contains v)
        let avail := if avail.isEmpty then d.video_ids else avail
        avail.get? (k % avail.length)

/-- The per-buffer core of `_update_history` (vidchoose.py lines 372-380):
`history.insert(0, entry)` followed by
`if len(history) > maxLen: history = history[:maxLen]`. -/
def updateHistoryBuffer (hist : List String) (entry : String) (maxLen : ℕ) :
    List String :=
  let h := entry :: hist
  if maxLen < h.length then h.take maxLen else h

/-- `_update_history(guild_id, channel_id, video_id)` applied to the pair of
buffers with their configured maxima (vidchoose.py lines 362-383). -/
def updateHistory (lastChannels lastVideos : List String)
    (channel_id video_id : String) (maxChannels maxVideos : ℕ) :
    List String × List String :=
  (updateHistoryBuffer lastChannels channel_id maxChannels,
   updateHistoryBuffer lastVideos video_id maxVideos)

/-- The per-guild configuration state of the VidChoose cog
(`default_guild` in vidchoose.py lines 26-38), restricted to the keys the
posting paths read or write. -/
structure GuildState where
  enabled : Bool
  post_channel : Option ℕ
  post_interval : ℚ
  last_post_time : ℚ
  channel_history : ℕ
  video_history : ℕ
  last_channels : List String
  last_videos : List String
  channels : List (String × ChannelData)
  deriving Repr, DecidableEq

/-- `_maybe_post_video` (vidchoose.py lines 411-455) as a state transformer.
`now` is `datetime.utcnow().timestamp()`; `r`, `k1`, `k2` are the random
draws consumed by `_weighted_choice` and `_select_video_from_channel`;
`channelExists` is whether `guild.get_channel(post_channel_id)` finds the
channel.  The return value pairs the new guild state with the list of
messages sent to the posting channel.  The `_fetch_video_info` call and the
`channel_name` lookup in the source are read-only and do not affect control
flow or state, so they have no counterpart here. -/
def maybePostVideo (st : GuildState) (now r : ℚ) (k1 k2 : ℕ)
    (channelExists : Bool) : GuildState × List String :=
  if !st.enabled then (st, [])
  else
    match st.post_channel with
    | none => (st, [])
    | some _ =>
        if now - st.last_post_time < st.post_interval * 60 then (st, [])
        else
          match weightedChoice st.channels r k1 with
          | none => (st, [])
          | some cid =>
              match selectVideoFromChannel st.channels cid st.last_videos k2 with
              | none => (st, [])
              | some vid =>
                  if channelExists then
                    ({ st with
                        last_channels :=
                          updateHistoryBuffer st.last_channels cid st.channel_history,
                        last_videos :=
                          updateHistoryBuffer st.last_videos vid st.video_history,
                        last_post_time := now },
                     ["https://www.youtube.com/watch?v=" ++ vid])
                  else (st, [])

/-- The `vidchoose force` command (vidchoose.py lines 741-769) as a state
transformer, with the same parameter conventions as `maybePostVideo`.  The
`ctx.send` feedback messages go to the invoking channel, not the posting
channel, and are not part of the posted-message list.  Note the success
branch updates the history buffers but never touches `last_post_time`. -/
def vidchooseForce (st : GuildState) (r : ℚ) (k1 k2 : ℕ)
    (channelExists : Bool) : GuildState × List String :=
  match st.post_channel with
  | none => (st, [])
  | some _ =>
      match weightedChoice st.channels r k1 with
      | none => (st, [])
      | some cid =>
          match selectVideoFromChannel st.channels cid st.last_videos k2 with
          | none => (st, [])
          | some vid =>
              if channelExists then
                ({ st with
                    last_channels :=
                      updateHistoryBuffer st.last_channels cid st.channel_history,
                    last_videos :=
                      updateHistoryBuffer st.last_videos vid st.video_history },
                 ["https://www.youtube.com/watch?v=" ++ vid])
              else (st, [])

/-- The character class `[a-zA-Z0-9_-]` used by every pattern of
`_extract_channel_id` (vidchoose.py lines 52-82). -/
def wordChar (c : Char) : Bool :=
  c.isAlpha || c.isDigit || c = '_' || c = '-'

/-- Python's `$` anchor outside MULTILINE mode, as used by the `re.match`
patterns of `_extract_channel_id`: once the rest of the pattern has
consumed everything before `rest`, `$` matches when `rest` is empty — or
when `rest` is exactly one final newline, which Python's `$` also accepts. -/
def dollarAnchor (rest : List Char) : Bool :=
  rest.isEmpty || decide (rest = ['\n'])

/-- `re.match(r"^UC[a-zA-Z0-9_-]{22}$", s)` (vidchoose.py line 55): the
string starts with the literal `UC` (this pattern is case-sensitive in the
source), the following 22 characters are in the word class, and the `$`
anchor holds after them — nothing follows, or a single trailing newline
does. -/
def matchesChannelIdPattern (s : String) : Bool :=
  let cs := s.data
  decide (24 ≤ cs.length) && decide (cs.take 2 = ['U', 'C']) &&
    ((cs.drop 2).take 22).all wordChar && dollarAnchor (cs.drop 24)

/-- The claim's notion of a canonical channel ID — a 24-character string
consisting of `UC` followed by 22 word-class characters.  Spec-side
predicate, used to compare the resolver's outputs against the claim; note
it is strictly stronger than `matchesChannelIdPattern`, which also accepts
a canonical ID followed by one trailing newline. -/
def isCanonicalChannelId (s : String) : Bool :=
  let cs := s.data
  cs.length = 24 && decide (cs.take 2 = ['U', 'C']) && (cs.drop 2).all wordChar

/-- `re.search(lit ++ "([a-zA-Z0-9_-]+)", s, re.IGNORECASE)` for a fixed
lowercase literal `lit`: scan for the leftmost position where the
lowercased input continues with `lit` followed by at least one word-class
character, and capture the maximal word-class run after the literal (the
regex `+` is greedy and nothing follows it in the pattern).  A position
where the literal matches but no word-class character follows is skipped,
exactly as the backtracking matcher does. -/
def searchLitCapture (lit : List Char) : List Char → Option (List Char)
  | [] => none
  | c :: rest =>
      let cap := ((c :: rest).drop lit.length).takeWhile wordChar
      if ((c :: rest).take lit.length).map Char.toLower = lit && !cap.isEmpty then
        some cap
      else searchLitCapture lit rest

/-- `re.search` for a pattern with a two-way alternation of literals
(`youtube\.com/(?:c|user)/`): at each position the first alternative is
tried before the second, as the backtracking matcher does. -/
def searchLit2Capture (lit1 lit2 : List Char) : List Char → Option (List Char)
  | [] => none
  | c :: rest =>
      let cap1 := ((c :: rest).drop lit1.length).takeWhile wordChar
      if ((c :: rest).take lit1.length).map Char.toLower = lit1 && !cap1.isEmpty then
        some cap1
      else
        let cap2 := ((c :: rest).drop lit2.length).takeWhile wordChar
        if ((c :: rest).take lit2.length).map Char.toLower = lit2 && !cap2.isEmpty then
          some cap2
        else searchLit2Capture lit1 lit2 rest

/-- `re.match(r"^[a-zA-Z0-9_-]+$", s)` (vidchoose.py line 78): a non-empty
word-class run from the start of the string, after which the `$` anchor
holds (end of string, or one final newline).  Since `\n` is not in the
word class, the greedy `+` consumes exactly the maximal run and no shorter
backtracking attempt can reach the anchor. -/
def isPlainToken (cs : List Char) : Bool :=
  !(cs.takeWhile wordChar).isEmpty &&
    dollarAnchor (cs.drop (cs.takeWhile wordChar).length)

/-- `_extract_channel_id` (vidchoose.py lines 52-82).  The two
network-backed resolvers `_resolve_handle_to_channel_id` and
`_resolve_custom_url_to_channel_id` are oracles `resolveHandle` and
`resolveCustom` (each returns `none` on missing API key, HTTP error, or an
empty result set, and otherwise whatever ID the API reports).  Case folding
is modelled on ASCII, which covers the all-ASCII literals of the source
patterns. -/
def extractChannelId (resolveHandle resolveCustom : String → Option String)
    (s : String) : Option String :=
  let cs := s.data
  if matchesChannelIdPattern s then some s
  else
    match searchLitCapture "youtube.com/channel/".data cs with
    | some cap => some (String.mk cap)
    | none =>
        match searchLitCapture "youtube.com/@".data cs with
        | some h => resolveHandle (String.mk h)
        | none =>
            match searchLit2Capture "youtube.com/c/".data "youtube.com/user/".data cs with
            | some n => resolveCustom (String.mk n)
            | none =>
                if isPlainToken cs then resolveCustom s else none

/-- The no-API-key environment: every network resolver returns `None`
(vidchoose.py lines 87-88 and 115-116). -/
def noResolver : String → Option String := fun _ => none

end VidChoose

namespace Ventcontrol

/-!
Embedding of `ventcontrol/ventcontrol.py`.  Python keys the persisted dicts
by `str(channel.id)` and the task map by the integer `channel.id`; since
`str` is injective on channel ids we key everything by `ℕ`.
-/

/-- The cog's mutable state: the persisted guild config keys
`purge_channels` (channel id ↦ interval minutes) and `countdown_messages`
(channel id ↦ pinned message id), plus the key set of the in-process task
map `self.purge_tasks` (the channels with a running `_purge_loop` task). -/
structure VentState where
  purge_channels : List (ℕ × ℕ)
  countdown_messages : List (ℕ × ℕ)
  purge_tasks : List ℕ
  deriving Repr, DecidableEq

/-- Python dict assignment `m[k] = v` on an association list: replace the
value in place when the key is present, append otherwise. -/
def setKey (m : List (ℕ × ℕ)) (k v : ℕ) : List (ℕ × ℕ) :=
  if m.any (fun p => p.1 = k) then
    m.map (fun p => if p.1 = k then (k, v) else p)
  else m ++ [(k, v)]

/-- The `purgeconfig` command (ventcontrol.py lines 34-57): cancel and drop
any existing task for the channel, persist the interval under
`purge_channels`, and start (register) a fresh purge task. -/
def purgeConfig (st : VentState) (channelId minutes : ℕ) : VentState :=
  let tasks := st.purge_tasks.filter (fun cid => cid ≠ channelId)
  { st with
      purge_channels := setKey st.purge_channels channelId minutes,
      purge_tasks := tasks ++ [channelId] }

/-- The `stoppurge` command as it appears in the source (ventcontrol.py
lines 62-78).  The body consists only of the countdown-message cleanup (the
line `# ... existing code ...` stands where task cancellation would go):
when a countdown message is recorded for the channel it is deleted from
the channel (an external effect with no counterpart in `VentState`) and its
entry is removed from `countdown_messages`.  Neither `purge_tasks` nor
`purge_channels` is touched on any path. -/
def stopPurge (st : VentState) (channelId : ℕ) : VentState :=
  if (st.countdown_messages.lookup channelId).isSome then
    { st with
        countdown_messages :=
          st.countdown_messages.filter (fun p => p.1 ≠ channelId) }
  else st

/-- The effect of the bot-ready event on the cog.  From the source: the
`on_ready` handler (ventcontrol.py lines 130-146) is a local function
defined inside the body of `_purge_loop`, after its `while True` loop — it
is not a class attribute, so `add_cog` never registers it as a listener and
the ready event runs no cog code.  The cog state is unchanged. -/
def onBotReady (st : VentState) : VentState := st

/-- Dict assignment `self.purge_tasks[channel_id] = task` restricted to the
key set: keep the key's position when present, append otherwise. -/
def addTaskKey (tasks : List ℕ) (channelId : ℕ) : List ℕ :=
  if tasks.contains channelId then tasks else tasks ++ [channelId]

/-- The body of the dead nested `on_ready` function (ventcontrol.py lines
135-146), as it would execute if it were registered: for every persisted
`purge_channels` entry whose channel still exists (`channelFound`) and
where the bot holds manage-messages (`permOk`), start a purge task and
register it in the task map. -/
def restorePurgeTasks (st : VentState) (channelFound permOk : ℕ → Bool) :
    VentState :=
  { st with
      purge_tasks :=
        (st.purge_channels.filter (fun p => channelFound p.1 && permOk p.1)).foldl
          (fun tasks p => addTaskKey tasks p.1) st.purge_tasks }

/-- The exception kinds distinguished by the `try/except` of `_purge_loop`
(ventcontrol.py lines 124-128): `discord.HTTPException` and
`asyncio.CancelledError`. -/
inductive PyExc
  | httpException
  | cancelledError
  deriving Repr, DecidableEq

/-- The observable inputs of one iteration of `_purge_loop` (ventcontrol.py
lines 96-122): whether the bot holds manage-messages when the permission
check runs, the outcome of the pre-purge phase (the config write, the
countdown-message updates and the minute sleeps — any of these awaits may
raise), and the outcome of `channel.purge(limit=None)`. -/
structure PurgeIterEnv where
  permManageMessages : Bool
  countdownPhase : Except PyExc Unit
  purgeCall : Except PyExc Unit
  deriving Repr

/-- How the `try` block of one `_purge_loop` iteration ends: it runs to the
end, executes `break` (the permission check at line 118-119 failed), or an
exception escapes to the handlers. -/
inductive BodyResult
  | completed
  | breakLoop
  | raised (e : PyExc)
  deriving Repr, DecidableEq

/-- The `try` block of one `_purge_loop` iteration (ventcontrol.py lines
97-122): the pre-purge phase runs first; then the permission check either
breaks out of the loop or `channel.purge` runs. -/
def purgeIterBody (env : PurgeIterEnv) : BodyResult :=
  match env.countdownPhase with
  | .error e => .raised e
  | .ok _ =>
      if !env.permManageMessages then .breakLoop
      else
        match env.purgeCall with
        | .error e => .raised e
        | .ok _ => .completed

/-- What the loop does after one iteration: run another iteration (after
`backoffSeconds` of extra sleep) or terminate. -/
inductive LoopOutcome
  | nextIteration (backoffSeconds : ℕ)
  | terminated
  deriving Repr, DecidableEq

/-- One iteration of `_purge_loop` together with its exception handlers
(ventcontrol.py lines 96-128): a completed body loops again immediately, a
`break` terminates, `except discord.HTTPException` sleeps 60 seconds and
continues, and `except asyncio.CancelledError` breaks. -/
def purgeLoopStep (env : PurgeIterEnv) : LoopOutcome :=
  match purgeIterBody env with
  | .completed => .nextIteration 0
  | .breakLoop => .terminated
  | .raised .httpException => .nextIteration 60
  | .raised .cancelledError => .terminated

/-- Whether the iteration actually completed a purge of the channel
(`channel.purge` was reached and returned). -/
def purgePerformed (env : PurgeIterEnv) : Bool :=
  match purgeIterBody env with
  | .completed => true
  | _ => false

end Ventcontrol

namespace VidChoose

lemma updateHistoryBuffer_eq_take (hist : List String) (entry : String) (M : ℕ) :
    updateHistoryBuffer hist entry M = (entry :: hist).take M := by
  simp only [updateHistoryBuffer]
  split
  · rfl
  · next h => exact (List.take_of_length_le (Nat.le_of_not_lt h)).symm

lemma take_append_take {α : Type} (l t : List α) (M : ℕ) :
    (l ++ t.take M).take M = (l ++ t).take M := by
  rw [List.take_append_eq_append_take, List.take_append_eq_append_take,
    List.take_take]
  have hmin : (M - l.length) ⊓ M = M - l.length :=
    min_eq_left (Nat.sub_le _ _)
  rw [hmin]

lemma foldl_updateHistoryBuffer (M : ℕ) :
    ∀ (xs acc : List String), acc.length ≤ M →
      xs.foldl (fun b x => updateHistoryBuffer b x M) acc
        = (xs.reverse ++ acc).take M := by
  intro xs
  induction xs with
  | nil =>
      intro acc h
      simpa using (List.take_of_length_le h).symm
  | cons x xs ih =>
      intro acc _h
      rw [List.foldl_cons,
        ih (updateHistoryBuffer acc x M)
          (by rw [updateHistoryBuffer_eq_take, List.length_take]
              exact min_le_left _ _),
        updateHistoryBuffer_eq_take, take_append_take, List.reverse_cons,
        List.append_assoc]
      rfl

/-- **C3**: for every old buffer, new entry and configured maximum `M ≥ 1`,
the record operation of `_update_history` produces the buffer obtained by
prepending the new entry and truncating to the first `M` elements (for each
of the channel and video buffers); its length is `≤ M` after every record;
and after inserting the `K` items of `xs` (with `M < K`) one by one into an
empty buffer, the buffer holds exactly the last `M` inserted items,
most-recent-first. -/
theorem update_history_matches_take (M : ℕ) (_hM : 1 ≤ M) :
    (∀ (old : List String) (entry : String),
        updateHistoryBuffer old entry M = (entry :: old).take M) ∧
    (∀ (old : List String) (entry : String),
        (updateHistoryBuffer old entry M).length ≤ M) ∧
    (∀ (lastChannels lastVideos : List String) (cid vid : String)
        (maxVideos : ℕ),
        updateHistory lastChannels lastVideos cid vid M maxVideos
          = ((cid :: lastChannels).take M, (vid :: lastVideos).take maxVideos)) ∧
    (∀ xs : List String, M < xs.length →
        xs.foldl (fun b x => updateHistoryBuffer b x M) []
          = xs.reverse.take M) := by
  refine ⟨fun old entry => updateHistoryBuffer_eq_take old entry M,
    fun old entry => ?_, fun lc lv cid vid maxV => ?_, fun xs _h => ?_⟩
  · rw [updateHistoryBuffer_eq_take, List.length_take]
    exact min_le_left _ _
  · unfold updateHistory
    rw [updateHistoryBuffer_eq_take, updateHistoryBuffer_eq_take]
  · simpa using foldl_updateHistoryBuffer M xs [] (by simp)

/-- Witness for C3 at `M = 2`: recording `"a"` over `["b", "c"]` keeps
`["a", "b"]`, and inserting four items keeps the last two,
most-recent-first. -/
theorem update_history_matches_take_witness :
    updateHistoryBuffer ["b", "c"] "a" 2 = ["a", "b"] ∧
    ["a", "b", "c", "d"].foldl (fun b x => updateHistoryBuffer b x 2) []
      = ["d", "c"] := by
  have h := update_history_matches_take 2 (by decide)
  exact ⟨by rw [h.1]; rfl, by rw [h.2.2.2 _ (by decide)]; rfl⟩

end VidChoose

namespace VidChoose

theorem select_video_spec (channels : List (String × ChannelData)) (cid : String)
    (d : ChannelData) (history : List String) (k : ℕ)
    (hlook : channels.lookup cid = some d) (hne : d.video_ids ≠ []) :
    (d.video_ids.filter (fun v => !history.contains v) ≠ [] →
        selectVideoFromChannel channels cid history k
          = (d.video_ids.filter (fun v => !history.contains v)).get?
              (k % (d.video_ids.filter (fun v => !history.contains v)).length)) ∧
    (d.video_ids.filter (fun v => !history.contains v) = [] →
        selectVideoFromChannel channels cid history k
          = d.video_ids.get? (k % d.video_ids.length)) ∧
    selectVideoFromChannel channels cid history k ≠ none := by
  have hemp : d.video_ids.isEmpty = false := List.isEmpty_eq_false.mpr hne
  have hbase : selectVideoFromChannel channels cid history k
      = (if (d.video_ids.filter (fun v => !history.contains v)).isEmpty then
           d.video_ids
         else d.video_ids.filter (fun v => !history.contains v)).get?
          (k % (if (d.video_ids.filter (fun v => !history.contains v)).isEmpty then
                  d.video_ids
                else d.video_ids.filter (fun v => !history.contains v)).length) := by
    simp only [selectVideoFromChannel, hlook, hemp, Bool.false_eq_true, if_false]
  refine ⟨fun hne2 => ?_, fun heq => ?_, ?_⟩
  · have hf : (d.video_ids.filter (fun v => !history.contains v)).isEmpty = false :=
      List.isEmpty_eq_false.mpr hne2
    rw [hbase, hf]
    simp only [Bool.false_eq_true, if_false]
  · have hf : (d.video_ids.filter (fun v => !history.contains v)).isEmpty = true := by
      rw [heq]; rfl
    rw [hbase, hf]
    simp only [if_true]
  · rw [hbase]
    by_cases hf : (d.video_ids.filter (fun v => !history.contains v)).isEmpty
    · rw [hf]
      simp only [if_true]
      have hlen : 0 < d.video_ids.length := List.length_pos.mpr hne
      rw [List.get?_eq_get (Nat.mod_lt k hlen)]
      simp
    · have hf' : (d.video_ids.filter (fun v => !history.contains v)).isEmpty = false :=
        Bool.not_eq_true _ ▸ Bool.eq_false_iff.mpr hf
      have hfe : (d.video_ids.filter (fun v => !history.contains v)) ≠ [] :=
        List.isEmpty_eq_false.mp hf'
      rw [hf']
      simp only [Bool.false_eq_true, if_false]
      have hlen : 0 < (d.video_ids.filter (fun v => !history.contains v)).length :=
        List.length_pos.mpr hfe
      rw [List.get?_eq_get (Nat.mod_lt k hlen)]
      simp

end VidChoose

namespace VidChoose

/-- Witness for C2: with catalog `[("ch", {name CH, weight 1, videos
[v1, v2]})]`, a buffer holding `v1` leads to `v2`; a buffer holding both
videos falls back to the unfiltered list. -/
theorem select_video_spec_witness :
    selectVideoFromChannel [("ch", ⟨"CH", 1, ["v1", "v2"]⟩)] "ch" ["v1"] 0
      = some "v2" ∧
    selectVideoFromChannel [("ch", ⟨"CH", 1, ["v1", "v2"]⟩)] "ch"
      ["v1", "v2"] 1 = some "v2" := by
  constructor
  · exact ((select_video_spec [("ch", ⟨"CH", 1, ["v1", "v2"]⟩)] "ch"
      ⟨"CH", 1, ["v1", "v2"]⟩ ["v1"] 0 (by decide) (by decide)).1
        (by decide)).trans (by decide)
  · exact ((select_video_spec [("ch", ⟨"CH", 1, ["v1", "v2"]⟩)] "ch"
      ⟨"CH", 1, ["v1", "v2"]⟩ ["v1", "v2"] 1 (by decide) (by decide)).2.1
        (by decide)).trans (by decide)

end VidChoose

namespace VidChoose

/-- **C7**: whenever any posting-loop prerequisite fails in
`_maybe_post_video` — posting disabled, no posting channel configured, the
interval since `last_post_time` not yet elapsed, or no eligible channel or
video selected — the function returns without sending a message and leaves
the whole guild state (in particular `last_post_time`, `last_channels` and
`last_videos`) unchanged. -/
theorem maybe_post_guard_no_effect (st : GuildState) (now r : ℚ) (k1 k2 : ℕ)
    (channelExists : Bool)
    (h : st.enabled = false ∨ st.post_channel = none ∨
         now - st.last_post_time < st.post_interval * 60 ∨
         weightedChoice st.channels r k1 = none ∨
         ∀ cid, weightedChoice st.channels r k1 = some cid →
           selectVideoFromChannel st.channels cid st.last_videos k2 = none) :
    maybePostVideo st now r k1 k2 channelExists = (st, []) := by
  rcases h with h | h | h | h | h
  · simp [maybePostVideo, h]
  · cases he : st.enabled
    · simp [maybePostVideo, he]
    · simp [maybePostVideo, he, h]
  · cases he : st.enabled
    · simp [maybePostVideo, he]
    · cases hpc : st.post_channel with
      | none => simp [maybePostVideo, he, hpc]
      | some pc => simp [maybePostVideo, he, hpc, h]
  · cases he : st.enabled
    · simp [maybePostVideo, he]
    · cases hpc : st.post_channel with
      | none => simp [maybePostVideo, he, hpc]
      | some pc =>
          by_cases ht : now - st.last_post_time < st.post_interval * 60
          · simp [maybePostVideo, he, hpc, ht]
          · simp [maybePostVideo, he, hpc, ht, h]
  · cases he : st.enabled
    · simp [maybePostVideo, he]
    · cases hpc : st.post_channel with
      | none => simp [maybePostVideo, he, hpc]
      | some pc =>
          by_cases ht : now - st.last_post_time < st.post_interval * 60
          · simp [maybePostVideo, he, hpc, ht]
          · cases hwc : weightedChoice st.channels r k1 with
            | none => simp [maybePostVideo, he, hpc, ht, hwc]
            | some cid => simp [maybePostVideo, he, hpc, ht, hwc, h cid hwc]

/-- Witness for C7: a disabled guild is left untouched and nothing is
posted. -/
theorem maybe_post_guard_no_effect_witness :
    maybePostVideo
      ⟨false, some 1, 30, 0, 5, 10, [], [], [("c1", ⟨"C1", 1, ["v1"]⟩)]⟩
      100 1 0 0 true
      = (⟨false, some 1, 30, 0, 5, 10, [], [], [("c1", ⟨"C1", 1, ["v1"]⟩)]⟩, []) :=
  maybe_post_guard_no_effect _ _ _ _ _ _ (Or.inl rfl)

/-- **C10**: when the `vidchoose force` command succeeds in posting a
video it updates the channel and video history buffers but leaves
`last_post_time` unchanged, whereas the automatic path `_maybe_post_video`
sets `last_post_time` to the current time after sending. -/
theorem force_post_preserves_last_post_time (st : GuildState) (r : ℚ)
    (k1 k2 : ℕ) (pc : ℕ) (cid vid : String)
    (hpc : st.post_channel = some pc)
    (hwc : weightedChoice st.channels r k1 = some cid)
    (hsv : selectVideoFromChannel st.channels cid st.last_videos k2 = some vid) :
    (vidchooseForce st r k1 k2 true).1.last_post_time = st.last_post_time ∧
    (vidchooseForce st r k1 k2 true).1.last_channels
      = updateHistoryBuffer st.last_channels cid st.channel_history ∧
    (vidchooseForce st r k1 k2 true).1.last_videos
      = updateHistoryBuffer st.last_videos vid st.video_history ∧
    (vidchooseForce st r k1 k2 true).2
      = ["https://www.youtube.com/watch?v=" ++ vid] ∧
    (∀ now : ℚ, st.enabled = true →
        ¬ (now - st.last_post_time < st.post_interval * 60) →
        (maybePostVideo st now r k1 k2 true).1.last_post_time = now) := by
  refine ⟨?_, ?_, ?_, ?_, fun now he ht => ?_⟩ <;>
    simp [vidchooseForce, maybePostVideo, hpc, hwc, hsv, *]

/-- Witness for C10: a successful forced post keeps `last_post_time = 0`
and records the video, while an automatic post at time 10000 sets
`last_post_time` to 10000. -/
theorem force_post_preserves_last_post_time_witness :
    (vidchooseForce ⟨true, some 1, 30, 0, 5, 10, [], [],
        [("c1", ⟨"C1", 1, ["v1"]⟩)]⟩ 1 0 0 true).1.last_post_time = 0 ∧
    (vidchooseForce ⟨true, some 1, 30, 0, 5, 10, [], [],
        [("c1", ⟨"C1", 1, ["v1"]⟩)]⟩ 1 0 0 true).1.last_videos = ["v1"] ∧
    (maybePostVideo ⟨true, some 1, 30, 0, 5, 10, [], [],
        [("c1", ⟨"C1", 1, ["v1"]⟩)]⟩ 10000 1 0 0 true).1.last_post_time
      = 10000 := by
  have h := force_post_preserves_last_post_time
    ⟨true, some 1, 30, 0, 5, 10, [], [], [("c1", ⟨"C1", 1, ["v1"]⟩)]⟩
    1 0 0 1 "c1" "v1" rfl
    (by norm_num [weightedChoice, validChannels, totalWeight, cumWalk])
    (by decide)
  exact ⟨h.1, h.2.2.1.trans (by decide), h.2.2.2.2 10000 rfl (by norm_num)⟩

lemma matchesChannelIdPattern_iff (s : String) :
    matchesChannelIdPattern s = true ↔
      (isCanonicalChannelId s = true ∨
        ∃ t : String, isCanonicalChannelId t = true ∧
          s.data = t.data ++ ['\n']) := by
  constructor
  · intro h
    simp only [matchesChannelIdPattern, dollarAnchor, Bool.and_eq_true,
      decide_eq_true_eq, Bool.or_eq_true, List.isEmpty_iff] at h
    obtain h := h
    obtain ⟨⟨⟨h24, hUC⟩, hall⟩, hanchor⟩ := h
    rcases hanchor with hnil | hnl
    · left
      have hlen : s.data.length = 24 :=
        le_antisymm (List.drop_eq_nil_iff.mp hnil) h24
      simp only [isCanonicalChannelId, Bool.and_eq_true, decide_eq_true_eq]
      refine ⟨⟨hlen, hUC⟩, ?_⟩
      have htk : (s.data.drop 2).take 22 = s.data.drop 2 := by
        apply List.take_of_length_le
        rw [List.length_drop, hlen]
      rw [← htk]
      exact hall
    · right
      have hlen : s.data.length = 25 := by
        have hle := congrArg List.length hnl
        rw [List.length_drop] at hle
        simp only [List.length_singleton] at hle
        omega
      refine ⟨⟨s.data.take 24⟩, ?_, ?_⟩
      · simp only [isCanonicalChannelId, Bool.and_eq_true, decide_eq_true_eq]
        refine ⟨⟨?_, ?_⟩, ?_⟩
        · rw [List.length_take, hlen]
          decide
        · rw [List.take_take]
          exact hUC
        · rw [List.drop_take]
          exact hall
      · conv_lhs => rw [← List.take_append_drop 24 s.data]
        rw [hnl]
  · intro h
    rcases h with hcan | ⟨t, htcan, heq⟩
    · simp only [isCanonicalChannelId, Bool.and_eq_true,
        decide_eq_true_eq] at hcan
      obtain ⟨⟨hlen, hUC⟩, hall⟩ := hcan
      simp only [matchesChannelIdPattern, dollarAnchor, Bool.and_eq_true,
        decide_eq_true_eq, Bool.or_eq_true, List.isEmpty_iff]
      refine ⟨⟨⟨by omega, hUC⟩, ?_⟩, Or.inl ?_⟩
      · rw [List.take_of_length_le (by rw [List.length_drop, hlen])]
        exact hall
      · exact List.drop_eq_nil_iff.mpr (by omega)
    · simp only [isCanonicalChannelId, Bool.and_eq_true,
        decide_eq_true_eq] at htcan
      obtain ⟨⟨hlen, hUC⟩, hall⟩ := htcan
      have hlen25 : s.data.length = 25 := by
        rw [heq]
        simp [hlen]
      have htake : s.data.take 24 = t.data := by
        rw [heq, List.take_append_eq_append_take,
          List.take_of_length_le (le_of_eq hlen), hlen]
        simp
      have hdrop : s.data.drop 24 = ['\n'] := by
        rw [heq, List.drop_append_eq_append_drop,
          List.drop_eq_nil_iff.mpr (le_of_eq hlen), hlen]
        simp
      simp only [matchesChannelIdPattern, dollarAnchor, Bool.and_eq_true,
        decide_eq_true_eq, Bool.or_eq_true, List.isEmpty_iff]
      refine ⟨⟨⟨by omega, ?_⟩, ?_⟩, Or.inr ?_⟩
      · have h2 : s.data.take 2 = t.data.take 2 := by
          rw [← htake, List.take_take]
          norm_num
        rw [h2]
        exact hUC
      · have h22 : (s.data.drop 2).take 22 = t.data.drop 2 := by
          rw [← htake, List.drop_take]
        rw [h22]
        exact hall
      · rw [hdrop]

/-- **C4 (amended)**: `_extract_channel_id` returns `none`, or the input
itself when the input matches the anchored pattern `^UC[a-zA-Z0-9_-]{22}$`
— because Python's `$` also matches before one trailing newline, that
means the input is a canonical 24-character `UC` ID or such an ID followed
by a single final newline — or the raw token captured from a
`/channel/<id>` URL (which need not be canonical), or a value produced by
one of the network resolvers.  (The claim's stronger statement, that every
non-null result is a canonical ID, is refuted by
`extract_channel_id_not_canonical`.) -/
theorem extract_channel_id_shape (rh rc : String → Option String) (s : String) :
    extractChannelId rh rc s = none ∨
    (extractChannelId rh rc s = some s ∧
      (isCanonicalChannelId s = true ∨
        ∃ t : String, isCanonicalChannelId t = true ∧
          s.data = t.data ++ ['\n'])) ∨
    (∃ cap, searchLitCapture "youtube.com/channel/".data s.data = some cap ∧
        extractChannelId rh rc s = some (String.mk cap)) ∨
    (∃ t, extractChannelId rh rc s = some t ∧
        ((∃ u, rh u = some t) ∨ (∃ u, rc u = some t))) := by
  unfold extractChannelId
  by_cases hc : matchesChannelIdPattern s
  · exact Or.inr (Or.inl ⟨by simp [hc], (matchesChannelIdPattern_iff s).mp hc⟩)
  · simp only [hc, Bool.false_eq_true, if_false]
    cases h1 : searchLitCapture "youtube.com/channel/".data s.data with
    | some cap => exact Or.inr (Or.inr (Or.inl ⟨cap, rfl, rfl⟩))
    | none =>
        cases h2 : searchLitCapture "youtube.com/@".data s.data with
        | some hnd =>
            cases hr : rh (String.mk hnd) with
            | none => exact Or.inl hr
            | some t => exact Or.inr (Or.inr (Or.inr ⟨t, hr, Or.inl ⟨_, hr⟩⟩))
        | none =>
            cases h3 : searchLit2Capture "youtube.com/c/".data
                "youtube.com/user/".data s.data with
            | some nm =>
                cases hr : rc (String.mk nm) with
                | none => exact Or.inl hr
                | some t => exact Or.inr (Or.inr (Or.inr ⟨t, hr, Or.inr ⟨_, hr⟩⟩))
            | none =>
                by_cases hp : isPlainToken s.data = true
                · rw [if_pos hp]
                  cases hr : rc s with
                  | none => exact Or.inl rfl
                  | some t => exact Or.inr (Or.inr (Or.inr ⟨t, rfl, Or.inr ⟨_, hr⟩⟩))
                · rw [if_neg hp]
                  exact Or.inl rfl

/-- Counterexample to C4 as stated: on the input
`"youtube.com/channel/abc"` the resolver returns `some "abc"` (with no API
key, so every network resolver yields `none`), and `"abc"` is not a
canonical `UC` + 22-character channel ID; likewise on a canonical ID
followed by one trailing newline — which Python's `$` accepts — the
resolver returns the 25-character input verbatim, which is not canonical
either. -/
theorem extract_channel_id_not_canonical :
    extractChannelId noResolver noResolver "youtube.com/channel/abc"
      = some "abc" ∧
    isCanonicalChannelId "abc" = false ∧
    extractChannelId noResolver noResolver "UCaaaaaaaaaaaaaaaaaaaaaa\n"
      = some "UCaaaaaaaaaaaaaaaaaaaaaa\n" ∧
    isCanonicalChannelId "UCaaaaaaaaaaaaaaaaaaaaaa\n" = false := by
  refine ⟨?_, ?_, ?_, ?_⟩ <;> decide

end VidChoose

namespace Ventcontrol

/-- **C5** (refuting the claim, which the intent of the code supports): on
every state and channel, the `stoppurge` command leaves both the running
task map and the persisted `purge_channels` config untouched — it only
cleans up the countdown message.  In particular, configuring channel 123
for a 30-minute purge and then immediately stopping it leaves the purge
task running and the channel still configured. -/
theorem stop_purge_never_cancels_task (st : VentState) (channelId : ℕ) :
    (stopPurge st channelId).purge_tasks = st.purge_tasks ∧
    (stopPurge st channelId).purge_channels = st.purge_channels ∧
    stopPurge (purgeConfig ⟨[], [(123, 999)], []⟩ 123 30) 123
      = ⟨[(123, 30)], [], [123]⟩ := by
  refine ⟨?_, ?_, by decide⟩ <;> (unfold stopPurge; split <;> rfl)

/-- **C6** (refuting the claim, which the docstring of the dead handler
supports): the bot-ready event changes nothing — in particular it starts
no purge task for a persisted `purge_channels` entry — whereas the
intended restore logic, as written in the unreachable nested `on_ready`
function, would have registered a task for channel 123. -/
theorem on_ready_never_resumes (st : VentState) :
    onBotReady st = st ∧
    (onBotReady ⟨[(123, 30)], [], []⟩).purge_tasks = [] ∧
    (restorePurgeTasks ⟨[(123, 30)], [], []⟩ (fun _ => true)
        (fun _ => true)).purge_tasks = [123] :=
  ⟨rfl, rfl, by decide⟩

/-- **C8**: in one purge-loop iteration, losing the manage-messages
permission at purge time terminates the loop without purging; an iteration
that raises `discord.HTTPException` makes the loop back off a fixed 60
seconds and continue; and a cancellation signal terminates the loop. -/
theorem purge_loop_reaction (env : PurgeIterEnv) :
    (env.countdownPhase = Except.ok () → env.permManageMessages = false →
        purgeLoopStep env = LoopOutcome.terminated ∧
        purgePerformed env = false) ∧
    (purgeIterBody env = BodyResult.raised PyExc.httpException →
        purgeLoopStep env = LoopOutcome.nextIteration 60) ∧
    (purgeIterBody env = BodyResult.raised PyExc.cancelledError →
        purgeLoopStep env = LoopOutcome.terminated) := by
  refine ⟨fun hok hperm => ?_, fun h => ?_, fun h => ?_⟩
  · constructor <;>
      simp [purgeLoopStep, purgePerformed, purgeIterBody, hok, hperm]
  · simp [purgeLoopStep, h]
  · simp [purgeLoopStep, h]

/-- Witness for C8 at the three concrete environments: permission lost,
HTTP failure during the purge call, and cancellation during the countdown
phase. -/
theorem purge_loop_reaction_witness :
    purgeLoopStep ⟨false, Except.ok (), Except.ok ()⟩
      = LoopOutcome.terminated ∧
    purgePerformed ⟨false, Except.ok (), Except.ok ()⟩ = false ∧
    purgeLoopStep ⟨true, Except.ok (), Except.error PyExc.httpException⟩
      = LoopOutcome.nextIteration 60 ∧
    purgeLoopStep ⟨true, Except.error PyExc.cancelledError, Except.ok ()⟩
      = LoopOutcome.terminated := by
  refine ⟨?_, ?_, ?_, ?_⟩
  · exact ((purge_loop_reaction _).1 rfl rfl).1
  · exact ((purge_loop_reaction _).1 rfl rfl).2
  · exact (purge_loop_reaction _).2.1 rfl
  · exact (purge_loop_reaction _).2.2 rfl

end Ventcontrol

namespace VidChoose

lemma cumAt_zero (p : String × ℚ) (rest : List (String × ℚ)) :
    cumAt (p :: rest) 0 = p.2 := by
  simp [cumAt]

lemma cumAt_succ (p : String × ℚ) (rest : List (String × ℚ)) (j : ℕ) :
    cumAt (p :: rest) (j + 1) = p.2 + cumAt rest j := by
  simp [cumAt, List.take_succ_cons]

lemma totalWeight_cons (p : String × ℚ) (rest : List (String × ℚ)) :
    totalWeight (p :: rest) = p.2 + totalWeight rest := by
  simp [totalWeight]

lemma cumWalk_mem (r : ℚ) :
    ∀ (vc : List (String × ℚ)) (c : ℚ) (cid : String),
      cumWalk r c vc = some cid → cid ∈ vc.map Prod.fst := by
  intro vc
  induction vc with
  | nil => intro c cid h; simp [cumWalk] at h
  | cons p rest ih =>
      intro c cid h
      rw [cumWalk] at h
      by_cases h0 : r ≤ c + p.2
      · rw [if_pos h0] at h
        exact (Option.some.inj h) ▸ List.mem_cons_self _ _
      · rw [if_neg h0] at h
        exact List.mem_cons_of_mem _ (ih (c + p.2) cid h)

lemma cumWalk_first (r : ℚ) :
    ∀ (vc : List (String × ℚ)) (c : ℚ), vc ≠ [] →
      r ≤ c + totalWeight vc →
      ∃ i, ∃ hi : i < vc.length,
        cumWalk r c vc = some (vc.get ⟨i, hi⟩).1 ∧
        r ≤ c + cumAt vc i ∧
        ∀ j < i, c + cumAt vc j < r := by
  intro vc
  induction vc with
  | nil => intro c hne _; exact absurd rfl hne
  | cons p rest ih =>
      intro c _ hle
      by_cases h0 : r ≤ c + p.2
      · refine ⟨0, Nat.succ_pos _, ?_, ?_, ?_⟩
        · simp [cumWalk, h0]
        · rw [cumAt_zero]; exact h0
        · intro j hj; exact absurd hj (Nat.not_lt_zero j)
      · have hrest : rest ≠ [] := by
          rintro rfl
          apply h0
          simpa [totalWeight] using hle
        have hle' : r ≤ (c + p.2) + totalWeight rest := by
          rw [totalWeight_cons] at hle; linarith
        obtain ⟨i, hi, heq, hge, hlt⟩ := ih (c + p.2) hrest hle'
        refine ⟨i + 1, Nat.succ_lt_succ hi, ?_, ?_, ?_⟩
        · simpa [cumWalk, h0] using heq
        · rw [cumAt_succ]; linarith
        · intro j hj
          cases j with
          | zero => rw [cumAt_zero]; exact lt_of_not_le h0
          | succ j' =>
              rw [cumAt_succ]
              have := hlt j' (Nat.lt_of_succ_lt_succ hj)
              linarith

lemma getLast?_mem_of_eq {α : Type} (l : List α) (a : α)
    (h : l.getLast? = some a) : a ∈ l := by
  cases l with
  | nil => simp at h
  | cons x xs =>
      have hne : x :: xs ≠ [] := by simp
      rw [List.getLast?_eq_getLast _ hne] at h
      exact (Option.some.inj h) ▸ List.getLast_mem hne

lemma weightedChoice_mem (channels : List (String × ChannelData)) (r : ℚ)
    (k : ℕ) (h : validChannels channels ≠ []) :
    ∃ cid, weightedChoice channels r k = some cid ∧
      cid ∈ (validChannels channels).map Prod.fst := by
  have hch : channels ≠ [] := by
    rintro rfl; exact h rfl
  have hche : channels.isEmpty = false := List.isEmpty_eq_false.mpr hch
  have hvce : (validChannels channels).isEmpty = false :=
    List.isEmpty_eq_false.mpr h
  simp only [weightedChoice, hche, hvce, Bool.false_eq_true, if_false]
  by_cases ht : totalWeight (validChannels channels) ≤ 0
  · rw [if_pos ht]
    have hlen : 0 < (validChannels channels).length := List.length_pos.mpr h
    have hlt : k % (validChannels channels).length
        < ((validChannels channels).map Prod.fst).length := by
      simpa using Nat.mod_lt k hlen
    rw [List.get?_eq_get hlt]
    exact ⟨_, rfl, List.get_mem _ _ _⟩
  · rw [if_neg ht]
    cases hcw : cumWalk r 0 (validChannels channels) with
    | some cid => exact ⟨cid, rfl, cumWalk_mem r _ 0 cid hcw⟩
    | none =>
        have hne : ((validChannels channels).map Prod.fst) ≠ [] := by
          simpa using h
        rw [List.getLast?_eq_getLast _ hne]
        exact ⟨_, rfl, List.getLast_mem hne⟩

end VidChoose

namespace VidChoose

/-- **C1**: `_weighted_choice` behaves as the reference algorithm: it
keeps exactly the catalog entries with weight > 0 and a non-empty video-ID
list; it returns `none` iff no entry qualifies; when the total qualifying
weight is `≤ 0` it returns a uniformly drawn qualifying entry (index
`k % length`); and for a draw `0 ≤ r < T` it returns the first qualifying
entry, in catalog iteration order, whose cumulative weight sum is `≥ r`
(every earlier cumulative sum being `< r`). -/
theorem weighted_choice_matches_reference
    (channels : List (String × ChannelData)) (r : ℚ) (k : ℕ) :
    (validChannels channels
        = (channels.filter
            (fun p => decide (p.2.video_ids ≠ [] ∧ 0 < p.2.weight))).map
            (fun p => (p.1, p.2.weight))) ∧
    (weightedChoice channels r k = none ↔ validChannels channels = []) ∧
    (validChannels channels ≠ [] →
        totalWeight (validChannels channels) ≤ 0 →
        weightedChoice channels r k
          = ((validChannels channels).map Prod.fst).get?
              (k % (validChannels channels).length)) ∧
    (0 ≤ r → r < totalWeight (validChannels channels) →
        ∃ i, ∃ hi : i < (validChannels channels).length,
          weightedChoice channels r k
            = some ((validChannels channels).get ⟨i, hi⟩).1 ∧
          r ≤ cumAt (validChannels channels) i ∧
          ∀ j < i, cumAt (validChannels channels) j < r) := by
  refine ⟨?_, ⟨fun hn => ?_, fun hv => ?_⟩, fun h ht => ?_, fun hr0 hrT => ?_⟩
  · unfold validChannels
    congr 1
    apply List.filter_congr
    intro x _
    cases hx : x.2.video_ids <;> by_cases h2 : (0:ℚ) < x.2.weight <;>
      simp [hx, h2]
  · by_contra hne
    obtain ⟨cid, hcid, _⟩ := weightedChoice_mem channels r k hne
    rw [hcid] at hn
    exact Option.noConfusion hn
  · by_cases hce : channels.isEmpty
    · simp [weightedChoice, hce]
    · simp [weightedChoice, hce, hv]
  · have hche : channels.isEmpty = false :=
      List.isEmpty_eq_false.mpr (fun hc => h (by rw [hc]; rfl))
    have hvce : (validChannels channels).isEmpty = false :=
      List.isEmpty_eq_false.mpr h
    simp only [weightedChoice, hche, hvce, Bool.false_eq_true, if_false]
    rw [if_pos ht]
  · have hvne : validChannels channels ≠ [] := by
      intro hv
      rw [hv] at hrT
      simp [totalWeight] at hrT
      linarith
    have hche : channels.isEmpty = false :=
      List.isEmpty_eq_false.mpr (fun hc => hvne (by rw [hc]; rfl))
    have hvce : (validChannels channels).isEmpty = false :=
      List.isEmpty_eq_false.mpr hvne
    have hT : ¬ totalWeight (validChannels channels) ≤ 0 :=
      not_le.mpr (lt_of_le_of_lt hr0 hrT)
    obtain ⟨i, hi, heq, hge, hlt⟩ :=
      cumWalk_first r (validChannels channels) 0 hvne
        (by rw [zero_add]; exact le_of_lt hrT)
    refine ⟨i, hi, ?_, by simpa using hge, fun j hj => by simpa using hlt j hj⟩
    simp only [weightedChoice, hche, hvce, Bool.false_eq_true, if_false]
    rw [if_neg hT, heq]

/-- Witness for C1: with catalog `[a ↦ weight 1, b ↦ weight 3]` (both
with videos) and draw `r = 2 ∈ [0, 4)`, the walk picks the first entry
whose cumulative sum reaches 2. -/
theorem weighted_choice_matches_reference_witness :
    ∃ i, ∃ hi : i < (validChannels
        [("a", ⟨"A", 1, ["v"]⟩), ("b", ⟨"B", 3, ["w"]⟩)]).length,
      weightedChoice [("a", ⟨"A", 1, ["v"]⟩), ("b", ⟨"B", 3, ["w"]⟩)] 2 0
        = some ((validChannels
            [("a", ⟨"A", 1, ["v"]⟩), ("b", ⟨"B", 3, ["w"]⟩)]).get ⟨i, hi⟩).1 ∧
      (2:ℚ) ≤ cumAt (validChannels
          [("a", ⟨"A", 1, ["v"]⟩), ("b", ⟨"B", 3, ["w"]⟩)]) i ∧
      ∀ j < i, cumAt (validChannels
          [("a", ⟨"A", 1, ["v"]⟩), ("b", ⟨"B", 3, ["w"]⟩)]) j < 2 :=
  (weighted_choice_matches_reference _ 2 0).2.2.2 (by norm_num)
    (by norm_num [totalWeight, validChannels])

/-- **C9**: for every catalog with at least one qualifying entry,
`_weighted_choice` never returns `none` and always returns the ID of a
qualifying entry, for every value of the random draw `r` (in particular
when the cumulative walk falls through to the unconditional
last-entry fallback) and of the uniform index `k`. -/
theorem weighted_choice_never_none (channels : List (String × ChannelData))
    (r : ℚ) (k : ℕ) (h : validChannels channels ≠ []) :
    ∃ cid, weightedChoice channels r k = some cid ∧
      cid ∈ (validChannels channels).map Prod.fst :=
  weightedChoice_mem channels r k h

/-- Witness for C9 with a draw `r = 5` past the total weight 1, the case
where the cumulative walk misses and the last-entry fallback fires. -/
theorem weighted_choice_never_none_witness :
    ∃ cid, weightedChoice [("a", ⟨"A", 1, ["v"]⟩)] 5 0 = some cid ∧
      cid ∈ (validChannels [("a", ⟨"A", 1, ["v"]⟩)]).map Prod.fst :=
  weighted_choice_never_none _ 5 0 (by decide)

end VidChoose
